import Mathlib

/-!
Verification development for the `auto-run-task` task runner.

The Python modules under `task_runner/` are shallowly embedded below:
pure functions become Lean functions, the stateful execution loops become
explicit state-passing functions, and the on-disk task-set file becomes an
explicit map from paths to file contents.  Python `float` durations are
modelled as rationals, Python `int` as `Int`, and Python dataclass
attributes that are only created at runtime (`elapsed_seconds`,
`last_run_at`) are modelled as `Option`-wrapped fields where `none` means
"the attribute does not exist" (reading it raises `AttributeError`).
-/

namespace AutoRun

/-- Embeds `task_runner.task_set.Task` (a Python `@dataclass`).

The dataclass declares `task_no`, `task_name`, `batch`, `description`,
`priority`, `status`, `prompt`, `cli`, `depends_on`.  It does NOT declare
`elapsed_seconds` or `last_run_at`; those attributes are created dynamically
by assignment in `executor.py` / `reset_cmd.py`.  We model such a dynamic
attribute as `Option (Option v)`: `none` means the attribute is absent
(reading it raises `AttributeError`), `some none` means it holds Python
`None`, and `some (some x)` means it holds the value `x`.  Fields that no
claim depends on (`description`, `prompt`, `cli`, `_raw`) are omitted. -/
structure Task where
  task_no : String
  task_name : String := ""
  batch : Int := 1
  priority : Int := 50
  status : String := "not-started"
  depends_on : Option String := none
  elapsed_seconds : Option (Option ℚ) := none
  last_run_at : Option (Option Unit) := none
  deriving DecidableEq, Repr

/-- Embeds `task_runner.task_set.TaskSet` (name, default template, tasks). -/
structure TaskSet where
  name : String
  template : Option String := none
  tasks : List Task
  deriving DecidableEq, Repr

/-- Embeds `Task.from_dict`: a task freshly loaded from a `.tasks.json` file.
`from_dict` only fills the declared dataclass fields, so the dynamic
attributes `elapsed_seconds` / `last_run_at` are absent (`none`) no matter
what keys the file contained. -/
def Task.fromFile (task_no : String) (status : String := "not-started")
    (batch : Int := 1) (priority : Int := 50)
    (depends_on : Option String := none) : Task :=
  { task_no := task_no, status := status, batch := batch,
    priority := priority, depends_on := depends_on,
    elapsed_seconds := none, last_run_at := none }

/-- The sort key used throughout `scheduler.py`:
`tasks.sort(key=lambda t: (t.batch, t.priority))`, i.e. lexicographic
comparison of `(batch, priority)`. -/
def taskLe (a b : Task) : Prop :=
  a.batch < b.batch ∨ (a.batch = b.batch ∧ a.priority ≤ b.priority)

instance : DecidableRel taskLe := fun a b =>
  inferInstanceAs (Decidable (_ ∨ _))

instance : IsTotal Task taskLe := by
  constructor
  intro a b
  unfold taskLe
  omega

instance : IsTrans Task taskLe := by
  constructor
  intro a b c hab hbc
  unfold taskLe at *
  omega

/-- The inner loop of the `start_from` filter in `schedule_tasks`
(`scheduler.py` lines 48-58): once the anchor `task_no` has been seen the
`found` flag stays set and every subsequent task is appended. -/
def startFromGo (anchor : String) (found : Bool) : List Task → List Task
  | [] => []
  | t :: rest =>
    let found2 := found || (t.task_no == anchor)
    if found2 then t :: startFromGo anchor found2 rest
    else startFromGo anchor found2 rest

/-- Embeds `scheduler.schedule_tasks`.

Python's `list.sort` is a stable sort by `(batch, priority)`; a stable sort
with respect to a total preorder is extensionally unique, and is embedded
here as `List.insertionSort`.  Python truthiness: `if status_filter:` and
`if start_from:` treat the empty string like `None`, which is mirrored
below. -/
def schedule_tasks (task_set : TaskSet)
    (batch : Option Int := none) (min_priority : Option Int := none)
    (status_filter : Option String := none) (start_from : Option String := none)
    (retry_failed : Bool := false) : List Task :=
  let tasks := task_set.tasks.insertionSort taskLe
  let tasks := match batch with
    | some b => tasks.filter (fun t => t.batch == b)
    | none => tasks
  let tasks := match min_priority with
    | some m => tasks.filter (fun t => decide (t.priority ≤ m))
    | none => tasks
  let tasks := match status_filter with
    | some s => if s == "" then tasks else tasks.filter (fun t => t.status == s)
    | none => tasks
  let tasks := if retry_failed then
      tasks.filter (fun t => t.status == "failed" || t.status == "interrupted")
    else tasks
  match start_from with
  | some anchor =>
    if anchor == "" then tasks
    else
      let filtered := startFromGo anchor false tasks
      if tasks.any (fun t => t.task_no == anchor) then filtered else tasks
  | none => tasks

/-- Dependency-readiness test from `get_execution_plan`
(`scheduler.py` line 133): a task is ready when it has no dependency or its
dependency is in the `completed` set. -/
def ready (completed : List String) (t : Task) : Bool :=
  match t.depends_on with
  | none => true
  | some d => completed.contains d

/-- Sort order of Python `sorted(remaining)` for the dump wave: ascending
`task_no` strings (Python compares strings by code point, as Lean does). -/
def taskNoLe (a b : Task) : Prop := a.task_no ≤ b.task_no

instance : DecidableRel taskNoLe := fun a b =>
  inferInstanceAs (Decidable (a.task_no ≤ b.task_no))

instance : IsTotal Task taskNoLe := by
  constructor
  intro a b
  exact le_total a.task_no b.task_no

instance : IsTrans Task taskNoLe := by
  constructor
  intro a b c hab hbc
  exact le_trans hab hbc

/-- The `while remaining and iteration < max_iterations` loop of
`get_execution_plan` (`scheduler.py` lines 127-148), with
`fuel = max_iterations - iteration`.

Python keeps `remaining` as a `set` of task numbers and iterates it in
unspecified order; since each wave is re-sorted and membership alone decides
readiness, the loop is order-insensitive except for ties inside a wave, and
is embedded with `remaining` as the (batch, priority)-sorted task list.
Removing the wave from `remaining` equals keeping the not-ready tasks
whenever `task_no`s are distinct (the data-model invariant assumed by the
claims below). -/
def planGo : List Task → List String → Nat → List (List Task)
  | _, _, 0 => []
  | [], _, _ + 1 => []
  | t :: rest, completed, fuel + 1 =>
    let remaining := t :: rest
    let wave := remaining.filter (ready completed)
    if wave.isEmpty then
      [remaining.insertionSort taskNoLe]
    else
      (wave.insertionSort taskLe) ::
        planGo (remaining.filter (fun u => !ready completed u))
          (completed ++ wave.map Task.task_no) fuel

/-- Embeds `scheduler.get_execution_plan`: sort by (batch, priority), then
run the wave loop with `max_iterations = len(tasks) + 1`. -/
def get_execution_plan (task_set : TaskSet) : List (List Task) :=
  let sorted := task_set.tasks.insertionSort taskLe
  planGo sorted [] (sorted.length + 1)

/-- Embeds a legacy plan task, which `state.py` and `_run_legacy` keep as a
plain dict and read with `t.get("task_no")` / `t.get("status")`; a missing
key yields Python `None`, modelled as `none`. -/
structure LTask where
  task_no : Option String := none
  status : Option String := none
  deriving DecidableEq, Repr

/-- The dict returned by `state.get_task_stats` and
`task_set.get_task_set_stats`.  Python integer arithmetic is unbounded and
signed, so the fields are `Int`. -/
structure TaskStats where
  total : Int
  completed : Int
  failed : Int
  in_progress : Int
  not_started : Int
  remaining : Int
  deriving DecidableEq, Repr

/-- Embeds `state.get_task_stats` (state.py lines 78-98). -/
def get_task_stats (tasks : List LTask) : TaskStats :=
  let total : Int := tasks.length
  let completed : Int := tasks.countP (fun t => t.status == some "completed")
  let failed : Int := tasks.countP (fun t => t.status == some "failed")
  let in_progress : Int := tasks.countP (fun t => t.status == some "in-progress")
  { total := total, completed := completed, failed := failed,
    in_progress := in_progress,
    not_started := total - completed - failed - in_progress,
    remaining := total - completed }

/-- Embeds `task_set.get_task_set_stats` (task_set.py lines 198-214); the
v3 `Task` dataclass always has a `status` string. -/
def get_task_set_stats (task_set : TaskSet) : TaskStats :=
  let tasks := task_set.tasks
  let total : Int := tasks.length
  let completed : Int := tasks.countP (fun t => t.status == "completed")
  let failed : Int := tasks.countP (fun t => t.status == "failed")
  let in_progress : Int := tasks.countP (fun t => t.status == "in-progress")
  { total := total, completed := completed, failed := failed,
    in_progress := in_progress,
    not_started := total - completed - failed - in_progress,
    remaining := total - completed }

/-- A filesystem path, split into the directory part and the final name
component (what `pathlib` calls `parent` and `name`).  `Path.with_suffix`
only rewrites the name component, never the directory. -/
structure PathP where
  dir : String
  name : String
  deriving DecidableEq, Repr

/-- The on-disk state: which file contents (byte strings) exist at which
paths.  `none` means the path does not exist. -/
def FS : Type := PathP → Option String

/-- Python `open(p, "w")` + full write: the file at `p` now holds `c`. -/
def fsWrite (fs : FS) (p : PathP) (c : String) : FS :=
  fun q => if q = p then some c else fs q

/-- `os.replace` / `Path.replace`: atomically rename `src` over `dst`.
Afterwards `dst` holds what `src` held and `src` is gone. -/
def fsRename (fs : FS) (src dst : PathP) : FS :=
  fun q => if q = dst then fs src else if q = src then none else fs q

/-- Position of the extension dot that `pathlib` recognises in a name: the
last "." at an index `i` with `0 < i < len - 1` (so ".bashrc" and a trailing
dot have no suffix).  Returns `none` when the name has no suffix. -/
def lastDotIdx (cs : List Char) : Option Nat :=
  let idxs := (List.range cs.length).filter
    (fun i => 0 < i && i + 1 < cs.length && cs.getD i ' ' == '.')
  idxs.getLast?

/-- `PurePath.with_suffix` restricted to the name component: drop the old
suffix (if any) and append the new one. -/
def withSuffixName (n : String) (suffix2 : String) : String :=
  match lastDotIdx n.toList with
  | some i => ((n.toList.take i).asString) ++ suffix2
  | none => n ++ suffix2

/-- The temp path used by both `save_task_set` (task_set.py line 170) and
`save_plan` (state.py line 44): `file_path.with_suffix(".json.tmp")`, which
lives in the same directory as `file_path`. -/
def tmpPathOf (p : PathP) : PathP :=
  { dir := p.dir, name := withSuffixName p.name ".json.tmp" }

/-- State of the disk if the process crashes (or the write fails) after
`save_task_set` / `save_plan` wrote the temp file but before the rename:
only the temp file has been touched. -/
def save_crash_state (fs : FS) (file_path : PathP) (content : String) : FS :=
  fsWrite fs (tmpPathOf file_path) content

/-- Embeds `task_set.save_task_set` (task_set.py lines 161-174): serialize
(`content` stands for the `json.dump` output), write it to the temp file,
then atomically rename the temp file over the target. -/
def save_task_set (fs : FS) (file_path : PathP) (content : String) : FS :=
  fsRename (fsWrite fs (tmpPathOf file_path) content) (tmpPathOf file_path) file_path

/-- Embeds `state.save_plan` (state.py lines 38-48): identical
write-temp-then-rename pattern with the same temp-path rule. -/
def save_plan (fs : FS) (plan_path : PathP) (content : String) : FS :=
  fsRename (fsWrite fs (tmpPathOf plan_path) content) (tmpPathOf plan_path) plan_path

/-- Characters for which Python `str.isspace()` is true (CPython's
`Py_UNICODE_ISSPACE` table): exactly what `str.strip()` removes and what
the regex class `\s` matches in Unicode mode — 0x09-0x0D, 0x1C-0x1F,
space, NEL, NBSP, Ogham space, the U+2000-U+200A spaces, the line and
paragraph separators, and the narrow/medium/ideographic spaces. -/
def isWS (c : Char) : Bool :=
  let n := c.toNat
  (0x09 ≤ n && n ≤ 0x0d) || (0x1c ≤ n && n ≤ 0x1f) || n == 0x20 ||
  n == 0x85 || n == 0xa0 || n == 0x1680 ||
  (0x2000 ≤ n && n ≤ 0x200a) || n == 0x2028 || n == 0x2029 ||
  n == 0x202f || n == 0x205f || n == 0x3000

/-- Python `line.strip()`: drop whitespace from both ends. -/
def pyStrip (cs : List Char) : List Char :=
  ((cs.dropWhile isWS).reverse.dropWhile isWS).reverse

/-- Characters of the regex class `[0-9;]` in `_ANSI_RE`. -/
def isDigitSemi (c : Char) : Bool := c.isDigit || c == ';'

/-- Match `_ANSI_RE` (executor.py lines 124-129) at the head of `cs`,
returning the remainder after the match.  The four alternatives are tried in
the regex order: `ESC [ [0-9;]* letter`, `ESC ] [^BEL]* BEL`,
`ESC [ ? [0-9;]* letter`, and a raw carriage return.  The character classes
before and after each star are disjoint, so the greedy star never
backtracks. -/
def ansiCSI (rest : List Char) : Option (List Char) :=
  match rest.dropWhile isDigitSemi with
  | c :: t => if c.isAlpha then some t else none
  | [] => none

def ansiMatchAt : List Char → Option (List Char)
  | [] => none
  | c :: rest =>
    if c == '\x1b' then
      match rest with
      | [] => none
      | b :: rest2 =>
        if b == '[' then
          match ansiCSI rest2 with
          | some t => some t
          | none =>
            match rest2 with
            | '?' :: rest3 => ansiCSI rest3
            | _ => none
        else if b == ']' then
          match rest2.dropWhile (fun d => !(d == '\x07')) with
          | _ :: t => some t
          | [] => none
        else none
    else if c == '\x0d' then some rest
    else none

/-- `_ANSI_RE.sub("", text)`: scan left to right, removing each
leftmost match; on no match at the current position, keep one character and
move on.  Each match consumes at least one character, so fuel equal to the
input length suffices for a faithful run. -/
def ansiStripGo : Nat → List Char → List Char
  | 0, cs => cs
  | _ + 1, [] => []
  | fuel + 1, c :: cs =>
    match ansiMatchAt (c :: cs) with
    | some rest => ansiStripGo fuel rest
    | none => c :: ansiStripGo fuel cs

/-- Strip all `_ANSI_RE` matches from a character list. -/
def ansiStrip (cs : List Char) : List Char := ansiStripGo cs.length cs

/-- Characters at which Python `str.splitlines` breaks a line (CPython's
`Py_UNICODE_ISLINEBREAK` table): LF, VT, FF, CR, the file/group/record
separators 0x1C-0x1E, NEL, and the Unicode line and paragraph
separators. -/
def isLineBreak (c : Char) : Bool :=
  let n := c.toNat
  n == 0x0a || n == 0x0b || n == 0x0c || n == 0x0d ||
  n == 0x1c || n == 0x1d || n == 0x1e || n == 0x85 ||
  n == 0x2028 || n == 0x2029

/-- Python `text.splitlines(keepends=True)`: break after every line-boundary
character, keeping it with the line, and treat a CR immediately followed by
LF as a single boundary.  (Inside `_sanitize_text` the input has already had
every CR removed by `_ANSI_RE`, so the CR cases never fire there, but they
are modelled for fidelity.) -/
def splitLinesGo (acc : List Char) : List Char → List (List Char)
  | [] => if acc.isEmpty then [] else [acc.reverse]
  | c :: cs =>
    if c == '\x0d' then
      match cs with
      | c2 :: cs2 =>
        if c2 == '\n' then
          (acc.reverse ++ ['\x0d', '\n']) :: splitLinesGo [] cs2
        else
          (acc.reverse ++ ['\x0d']) :: splitLinesGo [] (c2 :: cs2)
      | [] => [acc.reverse ++ ['\x0d']]
    else if isLineBreak c then (acc.reverse ++ [c]) :: splitLinesGo [] cs
    else splitLinesGo (c :: acc) cs

/-- `text.splitlines(keepends=True)` over a character list. -/
def splitLines (cs : List Char) : List (List Char) := splitLinesGo [] cs

/-- `pat.isPrefixOf cs` up to ASCII case folding was already applied by the
callers; plain list prefix test. -/
def matchGapAt (p1 p2 : List Char) (cs : List Char) : Bool :=
  p1.isPrefixOf cs && p2.isPrefixOf ((cs.drop p1.length).dropWhile isWS)

/-- `re.search` for the two-part patterns `p1 \s* p2`: try `matchGapAt` at
every suffix. -/
def searchGap (p1 p2 : List Char) : List Char → Bool
  | [] => matchGapAt p1 p2 []
  | c :: cs => matchGapAt p1 p2 (c :: cs) || searchGap p1 p2 cs

/-- `re.search` for a literal pattern: substring test. -/
def containsSub (pat : List Char) : List Char → Bool
  | [] => pat.isPrefixOf []
  | c :: cs => pat.isPrefixOf (c :: cs) || containsSub pat cs

/-- `_NOISE_BLOCK_START.search(stripped)` (executor.py lines 140-145), on an
already-stripped line, lowercased to honour `re.IGNORECASE`: either of the
two `Error: ...` phrases anywhere in the line, or a line that is exactly
`<html>` (the `^\s*<html>\s*$` branch collapses to equality after
stripping). -/
def noiseStartHit (stripped : List Char) : Bool :=
  let low := stripped.map Char.toLower
  searchGap "error:".toList "peer closed connection".toList low ||
  searchGap "error:".toList "incomplete chunked read".toList low ||
  low == "<html>".toList

/-- `_NOISE_BLOCK_END.search(stripped)` (executor.py line 146): `</html>`
anywhere in the line, case-insensitively. -/
def noiseEndHit (stripped : List Char) : Bool :=
  containsSub "</html>".toList (stripped.map Char.toLower)

/-- Embeds `_is_noise_line` (executor.py lines 155-160): a non-empty
stripped line that starts with `Error:\s*peer closed connection` or is
exactly `(incomplete chunked read)`, case-insensitively. -/
def is_noise_line (line : List Char) : Bool :=
  let stripped := pyStrip line
  if stripped.isEmpty then false
  else
    let low := stripped.map Char.toLower
    matchGapAt "error:".toList "peer closed connection".toList low ||
    low == "(incomplete chunked read)".toList

/-- The per-line state machine of `_sanitize_text` (executor.py lines
171-202), over lines that keep their end-of-line characters.  State:
`inNoise` (inside a noise block) and `prevBlank` (last emitted line was
blank).  Note the source does not update `prev_blank` on skipped lines. -/
def sanLines : List (List Char) → Bool → Bool → List (List Char)
  | [], _, _ => []
  | line :: ls, inNoise, prevBlank =>
    let stripped := pyStrip line
    if inNoise then
      if noiseEndHit stripped then sanLines ls false prevBlank
      else sanLines ls true prevBlank
    else if noiseStartHit stripped then sanLines ls true prevBlank
    else if is_noise_line stripped then sanLines ls false prevBlank
    else
      let isBlank := stripped.isEmpty
      if isBlank && prevBlank then sanLines ls false prevBlank
      else line :: sanLines ls false isBlank

/-- The `(in_noise, prev_blank)` state after `_sanitize_text` has consumed a
list of lines. -/
def sanState : List (List Char) → Bool → Bool → Bool × Bool
  | [], inNoise, prevBlank => (inNoise, prevBlank)
  | line :: ls, inNoise, prevBlank =>
    let stripped := pyStrip line
    if inNoise then
      if noiseEndHit stripped then sanState ls false prevBlank
      else sanState ls true prevBlank
    else if noiseStartHit stripped then sanState ls true prevBlank
    else if is_noise_line stripped then sanState ls false prevBlank
    else
      let isBlank := stripped.isEmpty
      if isBlank && prevBlank then sanState ls false prevBlank
      else sanState ls false isBlank

/-- Embeds `_sanitize_text` (executor.py lines 163-202): strip ANSI
sequences and carriage returns, split into lines keeping the line ends, run
the noise/blank state machine, and join. -/
def sanitize_text (s : String) : String :=
  ((sanLines (splitLines (ansiStrip s.toList)) false false).flatten).asString

/-- Modelled from the spec: collapse every run of two or more consecutive
blank lines to a single blank line (its first line), leaving everything else
untouched.  This is the transformation C9 says clean input undergoes. -/
def collapseBlankSpec : List (List Char) → Bool → List (List Char)
  | [], _ => []
  | line :: ls, prevBlank =>
    let isBlank := (pyStrip line).isEmpty
    if isBlank && prevBlank then collapseBlankSpec ls prevBlank
    else line :: collapseBlankSpec ls isBlank

/-- Modelled from the spec (claim C8 wording): elide each noise block from
start marker through the first end marker, and keep every line outside the
blocks verbatim, with no other transformation. -/
def elideBlocksClaimGo : List (List Char) → Bool → List (List Char)
  | [], _ => []
  | line :: ls, true =>
    if noiseEndHit (pyStrip line) then elideBlocksClaimGo ls false
    else elideBlocksClaimGo ls true
  | line :: ls, false =>
    if noiseStartHit (pyStrip line) then elideBlocksClaimGo ls true
    else line :: elideBlocksClaimGo ls false

/-- String-level version of `elideBlocksClaimGo`, comparable with
`sanitize_text` on ANSI-free input. -/
def elideBlocksClaim (s : String) : String :=
  ((elideBlocksClaimGo (splitLines s.toList) false).flatten).asString

/-- `MIN_EXECUTION_SECONDS` (executor.py line 76). -/
def MIN_EXECUTION_SECONDS : ℚ := 10

/-- Python `round(x, 1)` (round half to even at one decimal), on the
idealized rational value of the float. -/
def pyRound1 (q : ℚ) : ℚ :=
  let x := q * 10
  let f : Int := ⌊x⌋
  let r := x - f
  let n : Int :=
    if r < 1/2 then f
    else if r > 1/2 then f + 1
    else if f % 2 = 0 then f else f + 1
  (n : ℚ) / 10

/-- The result classification of the non-interrupted, non-timeout path of
`_run_v3` (executor.py lines 1145-1162) and `_run_legacy` (lines
1435-1451): `success = (return_code == 0)`, demoted to failure when the
elapsed time is under `MIN_EXECUTION_SECONDS`. -/
def classify_result (return_code : Int) (elapsed : ℚ) : String :=
  let success := return_code == 0
  let success :=
    if success && decide (elapsed < MIN_EXECUTION_SECONDS) then false
    else success
  if success then "completed" else "failed"

/-- The failure reason a failed (non-timeout) task is reported with. -/
inductive FailureReason where
  | timeout
  | exit_code (rc : Int)
  | too_fast
  deriving DecidableEq, Repr

/-- The failure reason attached to a failed, non-timeout task in `_run_v3`
(executor.py lines 1186-1191): the exit code when the elapsed time reached
`MIN_EXECUTION_SECONDS`, otherwise the distinct executed-too-fast reason. -/
def failure_reason_v3 (return_code : Int) (elapsed : ℚ) : FailureReason :=
  if decide (MIN_EXECUTION_SECONDS ≤ elapsed) then .exit_code return_code
  else .too_fast

/-- What one call to `execute_task` did, as observed by the loop when the
call returns: whether the shared interrupted flag got set while the child
ran, whether the timeout fired, the return code, and the elapsed seconds. -/
structure RunOutcome where
  interrupted : Bool
  timed_out : Bool
  return_code : Int
  elapsed : ℚ
  deriving DecidableEq, Repr

/-- Replace the element at index `i` using `f` (Python list/attribute
mutation of one task inside the owning list). -/
def listModify {α : Type} (f : α → α) : Nat → List α → List α
  | _, [] => []
  | 0, t :: ts => f t :: ts
  | n + 1, t :: ts => t :: listModify f n ts

/-- Observable state of one `_run_v3` invocation: the in-memory task list,
the snapshots persisted by each `save_task_set` call (most recent first),
the indices of tasks that were started (marked in-progress), the shared
interrupted flag, and the run counters. -/
structure RunState where
  tasks : List Task
  saves : List (List Task) := []
  executed : List Nat := []
  interrupted : Bool := false
  succeeded : Nat := 0
  failed : Nat := 0
  skipped : Nat := 0
  deriving DecidableEq, Repr

/-- The task loop of `TaskExecutor._run_v3` (executor.py lines 982-1230),
driven by an oracle `outcomes` that gives each task its execution outcome.
Display, notification, prompt/log files and the heartbeat thread carry no
task-set state and are elided; `dry_run` is false, the tool-availability
check passes (no per-task tool override), and an interrupt arriving during
the inter-task delay (which only skips straight to the top-of-loop break)
is subsumed by the oracle of the following task. -/
def runV3Go (outcomes : Nat → RunOutcome) : List Nat → RunState → RunState
  | [], st => st
  | i :: rest, st =>
    if st.interrupted then st
    else
      match st.tasks[i]? with
      | none => st
      | some task =>
        if task.status == "completed" then
          runV3Go outcomes rest { st with skipped := st.skipped + 1 }
        else
          let tasks1 := listModify (fun t => { t with status := "in-progress" }) i st.tasks
          let st1 := { st with
            tasks := tasks1
            saves := tasks1 :: st.saves
            executed := i :: st.executed }
          let o := outcomes i
          if o.interrupted then
            let tasks2 :=
              listModify (fun t => { t with status := "interrupted" }) i st1.tasks
            { st1 with tasks := tasks2, saves := tasks2 :: st1.saves,
                       interrupted := true }
          else if o.timed_out then
            let tasks2 := listModify (fun t =>
              { t with status := "failed",
                       elapsed_seconds := some (some (pyRound1 o.elapsed)),
                       last_run_at := some (some ()) }) i st1.tasks
            runV3Go outcomes rest
              { st1 with tasks := tasks2, saves := tasks2 :: st1.saves,
                         failed := st1.failed + 1 }
          else
            let status := classify_result o.return_code o.elapsed
            let tasks2 := listModify (fun t =>
              { t with status := status,
                       elapsed_seconds := some (some (pyRound1 o.elapsed)),
                       last_run_at := some (some ()) }) i st1.tasks
            let st2 := { st1 with tasks := tasks2, saves := tasks2 :: st1.saves }
            if status == "completed" then
              runV3Go outcomes rest { st2 with succeeded := st2.succeeded + 1 }
            else
              runV3Go outcomes rest { st2 with failed := st2.failed + 1 }

/-- One `_run_v3` invocation over the scheduled task list. -/
def runV3 (tasks : List Task) (outcomes : Nat → RunOutcome) : RunState :=
  runV3Go outcomes (List.range tasks.length) { tasks := tasks }

/-- Observable state of one `_run_legacy` invocation (plan tasks are
dicts). -/
structure LRunState where
  tasks : List LTask
  saves : List (List LTask) := []
  executed : List Nat := []
  interrupted : Bool := false
  succeeded : Nat := 0
  failed : Nat := 0
  skipped : Nat := 0
  deriving DecidableEq, Repr

/-- The task loop of `TaskExecutor._run_legacy` (executor.py lines
1357-1470), same elisions as `runV3Go`.  Note the interrupt branch (lines
1407-1410) resets the task to `not-started` — not `interrupted` — before
saving the plan and breaking, and no timing fields are recorded. -/
def runLegacyGo (outcomes : Nat → RunOutcome) : List Nat → LRunState → LRunState
  | [], st => st
  | i :: rest, st =>
    if st.interrupted then st
    else
      match st.tasks[i]? with
      | none => st
      | some task =>
        if (task.status.getD "not-started") == "completed" then
          runLegacyGo outcomes rest { st with skipped := st.skipped + 1 }
        else
          let tasks1 :=
            listModify (fun t => { t with status := some "in-progress" }) i st.tasks
          let st1 := { st with
            tasks := tasks1
            saves := tasks1 :: st.saves
            executed := i :: st.executed }
          let o := outcomes i
          if o.interrupted then
            let tasks2 :=
              listModify (fun t => { t with status := some "not-started" }) i st1.tasks
            { st1 with tasks := tasks2, saves := tasks2 :: st1.saves,
                       interrupted := true }
          else if o.timed_out then
            let tasks2 :=
              listModify (fun t => { t with status := some "failed" }) i st1.tasks
            runLegacyGo outcomes rest
              { st1 with tasks := tasks2, saves := tasks2 :: st1.saves,
                         failed := st1.failed + 1 }
          else
            let status := classify_result o.return_code o.elapsed
            let tasks2 :=
              listModify (fun t => { t with status := some status }) i st1.tasks
            let st2 := { st1 with tasks := tasks2, saves := tasks2 :: st1.saves }
            if status == "completed" then
              runLegacyGo outcomes rest { st2 with succeeded := st2.succeeded + 1 }
            else
              runLegacyGo outcomes rest { st2 with failed := st2.failed + 1 }

/-- One `_run_legacy` invocation, starting at `find_start_index`. -/
def runLegacy (tasks : List LTask) (startIdx : Nat)
    (outcomes : Nat → RunOutcome) : LRunState :=
  runLegacyGo outcomes (List.range' startIdx (tasks.length - startIdx))
    { tasks := tasks }

/-- The mutation the reset loop applies to a targeted task
(reset_cmd.py lines 97-99). -/
def resetApply (t : Task) : Task :=
  { t with status := "not-started", elapsed_seconds := some none,
           last_run_at := some none }

/-- The `for task in targets` loop of `handle_reset` (reset_cmd.py lines
91-100), returning the updated tasks, the reset count and the already-clean
count, or the uncaught Python exception.  The guard first checks
`task.status == "not-started"`; only when that is true does it read
`task.elapsed_seconds`, which raises `AttributeError` when the attribute was
never created (the `Task` dataclass does not declare it). -/
def handle_reset_apply : List Task → Except String (List Task × Nat × Nat)
  | [] => .ok ([], 0, 0)
  | t :: rest =>
    if t.status == "not-started" then
      match t.elapsed_seconds with
      | none => .error "AttributeError"
      | some none =>
        (handle_reset_apply rest).map (fun x => (t :: x.1, x.2.1, x.2.2 + 1))
      | some (some _) =>
        (handle_reset_apply rest).map
          (fun x => (resetApply t :: x.1, x.2.1 + 1, x.2.2))
    else
      (handle_reset_apply rest).map
        (fun x => (resetApply t :: x.1, x.2.1 + 1, x.2.2))

/-- Sample tasks for the ordering example in the spec (batch, priority) =
(1,20), (1,10), (2,5), (1,15) in file order. -/
def sampleT1 : Task := Task.fromFile "t1" "not-started" 1 20 none

def sampleT2 : Task := Task.fromFile "t2" "not-started" 1 10 none

def sampleT3 : Task := Task.fromFile "t3" "not-started" 2 5 none

def sampleT4 : Task := Task.fromFile "t4" "not-started" 1 15 none

/-- Sample tasks for the wave-planning scenario in the spec:
A (batch 1, pri 1), B (batch 1, pri 2, depends on A), C (batch 2, pri 1). -/
def sampleA : Task := Task.fromFile "A" "not-started" 1 1 none

def sampleB : Task := Task.fromFile "B" "not-started" 1 2 (some "A")

def sampleC : Task := Task.fromFile "C" "not-started" 2 1 none

/-- The sample task set for the scenario above. -/
def sampleSet : TaskSet := { name := "sample", tasks := [sampleA, sampleB, sampleC] }

/-- A one-file filesystem for exercising the atomic-save model. -/
def sampleFS : FS :=
  fun q => if q = { dir := "proj", name := "code.tasks.json" } then some "orig" else none

/-- The path of the sample task-set file. -/
def samplePath : PathP := { dir := "proj", name := "code.tasks.json" }

/-- Claim C1: saving a task set (`save_task_set`) or plan (`save_plan`)
writes the serialized content to a temporary file in the same directory and
then renames it over the target, so if the save fails or the process
crashes before the rename (only the temp file exists), the original on-disk
file is byte-for-byte unchanged; a completed save installs the new
content. -/
theorem C1_atomic_persistence (fs : FS) (p : PathP) (content : String)
    (h : tmpPathOf p ≠ p) :
    save_crash_state fs p content p = fs p ∧
    (tmpPathOf p).dir = p.dir ∧
    (∀ q : PathP, q ≠ tmpPathOf p → save_crash_state fs p content q = fs q) ∧
    save_task_set fs p content p = some content ∧
    save_plan fs p content p = some content := by
  refine ⟨?_, rfl, ?_, ?_, ?_⟩
  · show (if p = tmpPathOf p then some content else fs p) = fs p
    rw [if_neg (fun e => h e.symm)]
  · intro q hq
    show (if q = tmpPathOf p then some content else fs q) = fs q
    rw [if_neg hq]
  · show (if p = p then fsWrite fs (tmpPathOf p) content (tmpPathOf p)
      else if p = tmpPathOf p then none else fsWrite fs (tmpPathOf p) content p)
      = some content
    rw [if_pos rfl]
    show (if tmpPathOf p = tmpPathOf p then some content else fs (tmpPathOf p))
      = some content
    rw [if_pos rfl]
  · show (if p = p then fsWrite fs (tmpPathOf p) content (tmpPathOf p)
      else if p = tmpPathOf p then none else fsWrite fs (tmpPathOf p) content p)
      = some content
    rw [if_pos rfl]
    show (if tmpPathOf p = tmpPathOf p then some content else fs (tmpPathOf p))
      = some content
    rw [if_pos rfl]

/-- Witness for C1 at a concrete filesystem, path and content. -/
theorem C1_atomic_persistence_witness :
    tmpPathOf samplePath ≠ samplePath ∧
    (save_crash_state sampleFS samplePath "new" samplePath = sampleFS samplePath ∧
     (tmpPathOf samplePath).dir = samplePath.dir ∧
     (∀ q : PathP, q ≠ tmpPathOf samplePath →
        save_crash_state sampleFS samplePath "new" q = sampleFS q) ∧
     save_task_set sampleFS samplePath "new" samplePath = some "new" ∧
     save_plan sampleFS samplePath "new" samplePath = some "new") :=
  ⟨by decide, C1_atomic_persistence sampleFS samplePath "new" (by decide)⟩

/-- Claim C3: a non-interrupted, non-timeout execution with return code 0
and elapsed time strictly below `MIN_EXECUTION_SECONDS` is classified
failed with the distinct too-fast reason; with return code 0 at or above
the threshold it is completed; with a non-zero return code it is failed;
and in particular return code 0 at threshold minus 0.1 seconds is
failed. -/
theorem C3_classification (rc : Int) (elapsed : ℚ) :
    ((rc = 0 → elapsed < MIN_EXECUTION_SECONDS →
        classify_result rc elapsed = "failed" ∧
        failure_reason_v3 rc elapsed = FailureReason.too_fast) ∧
     (rc = 0 → MIN_EXECUTION_SECONDS ≤ elapsed →
        classify_result rc elapsed = "completed") ∧
     (rc ≠ 0 → classify_result rc elapsed = "failed")) ∧
    (MIN_EXECUTION_SECONDS - mkRat 1 10 = mkRat 99 10 ∧
     classify_result 0 (mkRat 99 10) = "failed") := by
  constructor
  · refine ⟨?_, ?_, ?_⟩
    · intro h0 hlt
      subst h0
      refine ⟨?_, ?_⟩
      · simp [classify_result, hlt]
      · simp [failure_reason_v3, not_le.2 hlt]
    · intro h0 hge
      subst h0
      simp [classify_result, not_lt.2 hge]
    · intro hne
      simp [classify_result, hne]
  · refine ⟨?_, by decide⟩
    rw [show MIN_EXECUTION_SECONDS = (10 : ℚ) from rfl]
    norm_num [Rat.mkRat_eq_div]

/-- Witness for C3 at return code 0 and elapsed 9.9 seconds. -/
theorem C3_classification_witness :
    ((0 : Int) = 0 ∧ mkRat 99 10 < MIN_EXECUTION_SECONDS) ∧
    classify_result 0 (mkRat 99 10) = "failed" ∧
    failure_reason_v3 0 (mkRat 99 10) = FailureReason.too_fast :=
  ⟨⟨rfl, by decide⟩,
   ((C3_classification 0 (mkRat 99 10)).1.1 rfl (by decide)).1,
   ((C3_classification 0 (mkRat 99 10)).1.1 rfl (by decide)).2⟩

/-- Claim C6 names a real defect: resetting a targeted task that is already
`not-started` is supposed to be a counted no-op, but on a freshly loaded
task set the reset loop reads `task.elapsed_seconds`, an attribute the
`Task` dataclass never declares and `from_dict` never creates, so the
command dies with `AttributeError` instead.  The failing input is any
targeted task with status `not-started`, e.g. a task set just loaded from
disk. -/
theorem C6_reset_attribute_error :
    (Task.fromFile "T-1").status = "not-started" ∧
    (Task.fromFile "T-1").elapsed_seconds = none ∧
    handle_reset_apply [Task.fromFile "T-1"] = Except.error "AttributeError" :=
  ⟨rfl, rfl, rfl⟩

/-- Splitting a list count over the three counted statuses plus the rest
(`LTask` version). -/
theorem ltask_status_partition (l : List LTask) :
    l.countP (fun t => t.status == some "completed") +
    l.countP (fun t => t.status == some "failed") +
    l.countP (fun t => t.status == some "in-progress") +
    l.countP (fun t => !(t.status == some "completed") &&
      !(t.status == some "failed") && !(t.status == some "in-progress"))
      = l.length := by
  induction l with
  | nil => rfl
  | cons t l ih =>
    simp only [List.countP_cons, List.length_cons]
    by_cases h1 : t.status = some "completed"
    · simp [h1]
      omega
    · by_cases h2 : t.status = some "failed"
      · simp [h2]
        omega
      · by_cases h3 : t.status = some "in-progress"
        · simp [h3]
          omega
        · simp [h1, h2, h3]
          omega

/-- Splitting a list count over the three counted statuses plus the rest
(`Task` version). -/
theorem task_status_partition (l : List Task) :
    l.countP (fun t => t.status == "completed") +
    l.countP (fun t => t.status == "failed") +
    l.countP (fun t => t.status == "in-progress") +
    l.countP (fun t => !(t.status == "completed") &&
      !(t.status == "failed") && !(t.status == "in-progress"))
      = l.length := by
  induction l with
  | nil => rfl
  | cons t l ih =>
    simp only [List.countP_cons, List.length_cons]
    by_cases h1 : t.status = "completed"
    · simp [h1]
      omega
    · by_cases h2 : t.status = "failed"
      · simp [h2]
        omega
      · by_cases h3 : t.status = "in-progress"
        · simp [h3]
          omega
        · simp [h1, h2, h3]
          omega

/-- A count and its complement add up to the length. -/
theorem countP_not_split {α : Type} (p : α → Bool) (l : List α) :
    l.countP p + l.countP (fun a => !(p a)) = l.length := by
  induction l with
  | nil => rfl
  | cons t l ih =>
    simp only [List.countP_cons, List.length_cons]
    by_cases h : p t
    · simp [h]
      omega
    · simp [h]
      omega

/-- Claim C10: `get_task_stats` and `get_task_set_stats` satisfy
`completed + failed + in_progress + not_started = total` and
`remaining = total - completed`; `not_started` counts exactly the tasks
whose status is none of completed/failed/in-progress (so `interrupted`
and `skipped` land there), and `remaining` counts exactly the
non-completed tasks (so failed tasks count as remaining). -/
theorem C10_stats (ltasks : List LTask) (ts : TaskSet) :
    (let s := get_task_stats ltasks
     s.completed + s.failed + s.in_progress + s.not_started = s.total ∧
     s.remaining = s.total - s.completed ∧
     s.not_started = (ltasks.countP (fun t => !(t.status == some "completed") &&
        !(t.status == some "failed") && !(t.status == some "in-progress")) : Int) ∧
     s.remaining = (ltasks.countP (fun t => !(t.status == some "completed")) : Int)) ∧
    (let s2 := get_task_set_stats ts
     s2.completed + s2.failed + s2.in_progress + s2.not_started = s2.total ∧
     s2.remaining = s2.total - s2.completed ∧
     s2.not_started = (ts.tasks.countP (fun t => !(t.status == "completed") &&
        !(t.status == "failed") && !(t.status == "in-progress")) : Int) ∧
     s2.remaining = (ts.tasks.countP (fun t => !(t.status == "completed")) : Int)) ∧
    (get_task_stats [{ task_no := some "x", status := some "interrupted" },
                     { task_no := some "y", status := some "skipped" }]).not_started = 2 ∧
    (get_task_stats [{ task_no := some "x", status := some "failed" }]).remaining = 1 := by
  refine ⟨⟨?_, rfl, ?_, ?_⟩, ⟨?_, rfl, ?_, ?_⟩, by decide, by decide⟩
  · simp only [get_task_stats]
    ring
  · simp only [get_task_stats]
    have h := ltask_status_partition ltasks
    omega
  · simp only [get_task_stats]
    have h := countP_not_split (fun t : LTask => t.status == some "completed") ltasks
    omega
  · simp only [get_task_set_stats]
    ring
  · simp only [get_task_set_stats]
    have h := task_status_partition ts.tasks
    omega
  · simp only [get_task_set_stats]
    have h := countP_not_split (fun t : Task => t.status == "completed") ts.tasks
    omega

/-- Filtering after an ordered insert: when all elements selected by `p`
are mutually related by `r`, the insert lands before every selected element
of the list, so the filter sees `a` first (if selected) and the rest
unchanged. -/
theorem filter_orderedInsert {α : Type} (r : α → α → Prop) [DecidableRel r]
    (p : α → Bool) (hp : ∀ x y, p x = true → p y = true → r x y) (a : α) :
    ∀ l : List α, (l.orderedInsert r a).filter p =
      if p a then a :: l.filter p else l.filter p := by
  intro l
  induction l with
  | nil =>
    simp only [List.orderedInsert, List.filter]
    cases hpa : p a <;> simp [hpa]
  | cons b l ih =>
    by_cases hr : r a b
    · simp only [List.orderedInsert, if_pos hr]
      by_cases hpa : p a
      · simp [List.filter_cons, hpa]
      · simp [List.filter_cons, hpa]
    · simp only [List.orderedInsert, if_neg hr]
      by_cases hpa : p a
      · have hpb : p b = false := by
          by_contra hb
          exact hr (hp a b hpa (by revert hb; cases p b <;> simp))
        simp [List.filter_cons, hpa, hpb, ih]
      · by_cases hpb : p b
        · simp [List.filter_cons, hpa, hpb, ih]
        · simp [List.filter_cons, hpa, hpb, ih]

/-- Stability of the embedded sort: filtering by any class of mutually
`r`-related elements commutes with sorting, i.e. tied elements keep their
original relative order. -/
theorem filter_insertionSort {α : Type} (r : α → α → Prop) [DecidableRel r]
    (p : α → Bool) (hp : ∀ x y, p x = true → p y = true → r x y) :
    ∀ l : List α, (l.insertionSort r).filter p = l.filter p := by
  intro l
  induction l with
  | nil => rfl
  | cons a l ih =>
    simp only [List.insertionSort]
    rw [filter_orderedInsert r p hp]
    by_cases hpa : p a
    · simp [List.filter_cons, hpa, ih]
    · simp [List.filter_cons, hpa, ih]

/-- Claim C5: with no filters, `schedule_tasks` returns exactly the task
set's tasks sorted stably by (batch ascending, priority ascending): the
result is a permutation of the input, sorted by the key, tasks tying on
(batch, priority) keep their original file order, and the spec's example
(1,20),(1,10),(2,5),(1,15) comes out as (1,10),(1,15),(1,20),(2,5). -/
theorem C5_schedule_sorted (ts : TaskSet) :
    ((schedule_tasks ts).Perm ts.tasks ∧
     List.Sorted taskLe (schedule_tasks ts) ∧
     ∀ b p : Int, (schedule_tasks ts).filter
         (fun t => t.batch == b && t.priority == p) =
       ts.tasks.filter (fun t => t.batch == b && t.priority == p)) ∧
    (schedule_tasks { name := "example", tasks := [sampleT1, sampleT2, sampleT3, sampleT4] }).map
        Task.task_no = ["t2", "t4", "t1", "t3"] := by
  refine ⟨⟨?_, ?_, ?_⟩, by decide⟩
  · exact List.perm_insertionSort taskLe ts.tasks
  · exact List.sorted_insertionSort taskLe ts.tasks
  · intro b p
    refine filter_insertionSort taskLe _ ?_ ts.tasks
    intro x y hx hy
    have hxb : x.batch = b := by
      have := (Bool.and_eq_true _ _).mp hx
      exact beq_iff_eq.mp this.1
    have hxp : x.priority = p := by
      have := (Bool.and_eq_true _ _).mp hx
      exact beq_iff_eq.mp this.2
    have hyb : y.batch = b := by
      have := (Bool.and_eq_true _ _).mp hy
      exact beq_iff_eq.mp this.1
    have hyp2 : y.priority = p := by
      have := (Bool.and_eq_true _ _).mp hy
      exact beq_iff_eq.mp this.2
    right
    constructor
    · rw [hxb, hyb]
    · rw [hxp, hyp2]

/-- `startFromGo` with the flag already set keeps everything. -/
theorem startFromGo_true (anchor : String) :
    ∀ l : List Task, startFromGo anchor true l = l := by
  intro l
  induction l with
  | nil => rfl
  | cons t rest ih =>
    simp [startFromGo, ih]

/-- `startFromGo` with the flag unset drops the prefix strictly before the
first occurrence of the anchor. -/
theorem startFromGo_false (anchor : String) :
    ∀ l : List Task, startFromGo anchor false l =
      l.dropWhile (fun t => !(t.task_no == anchor)) := by
  intro l
  induction l with
  | nil => rfl
  | cons t rest ih =>
    by_cases h : t.task_no == anchor
    · simp [startFromGo, h, List.dropWhile, startFromGo_true]
    · have h2 : (t.task_no == anchor) = false := by
        revert h; cases t.task_no == anchor <;> simp
      simp [startFromGo, h2, List.dropWhile, ih]

/-- Claim C7: with a non-empty `start_from` anchor, `schedule_tasks`
returns the suffix of the otherwise-filtered, sorted list beginning at the
first occurrence of the anchor task, and when the anchor does not occur
among the surviving tasks it returns that filtered, sorted list
unchanged. -/
theorem C7_start_from (ts : TaskSet) (batch : Option Int) (minp : Option Int)
    (statusf : Option String) (retry : Bool) (anchor : String)
    (hne : anchor ≠ "") :
    schedule_tasks ts batch minp statusf (some anchor) retry =
      (if (schedule_tasks ts batch minp statusf none retry).any
          (fun t => t.task_no == anchor)
       then (schedule_tasks ts batch minp statusf none retry).dropWhile
          (fun t => !(t.task_no == anchor))
       else schedule_tasks ts batch minp statusf none retry) := by
  have hne2 : (anchor == "") = false := by
    revert hne; cases h : anchor == "" <;> simp_all
  simp only [schedule_tasks, hne2, Bool.false_eq_true, if_false]
  rw [startFromGo_false]

/-- Witness for C7: anchor "B" occurs in the sample set, anchor "Z" does
not. -/
theorem C7_start_from_witness :
    ("B" : String) ≠ "" ∧
    schedule_tasks sampleSet none none none (some "B") false =
      (if (schedule_tasks sampleSet).any (fun t => t.task_no == "B")
       then (schedule_tasks sampleSet).dropWhile (fun t => !(t.task_no == "B"))
       else schedule_tasks sampleSet) :=
  ⟨by decide, C7_start_from sampleSet none none none false "B" (by decide)⟩

/-- `_ANSI_RE` can only match at an escape character or a carriage
return. -/
theorem ansiMatchAt_none (c : Char) (cs : List Char)
    (h1 : c ≠ '\x1b') (h2 : c ≠ '\x0d') : ansiMatchAt (c :: cs) = none := by
  have b1 : (c == '\x1b') = false := by
    cases hb : c == '\x1b'
    · rfl
    · exact absurd (eq_of_beq hb) h1
  have b2 : (c == '\x0d') = false := by
    cases hb : c == '\x0d'
    · rfl
    · exact absurd (eq_of_beq hb) h2
  simp [ansiMatchAt, b1, b2]

/-- On text with no escape characters and no carriage returns, the ANSI
stripper is the identity, whatever the fuel. -/
theorem ansiStripGo_clean :
    ∀ (fuel : Nat) (cs : List Char),
      (∀ c ∈ cs, c ≠ '\x1b' ∧ c ≠ '\x0d') → ansiStripGo fuel cs = cs := by
  intro fuel
  induction fuel with
  | zero => intro cs _; rfl
  | succ f ih =>
    intro cs h
    cases cs with
    | nil => rfl
    | cons c cs2 =>
      have hc := h c (List.mem_cons_self c cs2)
      have hmatch := ansiMatchAt_none c cs2 hc.1 hc.2
      simp only [ansiStripGo, hmatch]
      rw [ih cs2 (fun d hd => h d (List.mem_cons_of_mem _ hd))]

/-- On clean text, `_ANSI_RE.sub` is the identity. -/
theorem ansiStrip_clean (cs : List Char)
    (h : ∀ c ∈ cs, c ≠ '\x1b' ∧ c ≠ '\x0d') : ansiStrip cs = cs :=
  ansiStripGo_clean cs.length cs h

/-- On lines none of which match a noise-block start, a noise-block end, or
a standalone noise pattern, the sanitizer state machine only collapses
blank-line runs. -/
theorem sanLines_clean :
    ∀ (ls : List (List Char)) (pb : Bool),
      (∀ l ∈ ls, noiseStartHit (pyStrip l) = false ∧
        noiseEndHit (pyStrip l) = false ∧ is_noise_line (pyStrip l) = false) →
      sanLines ls false pb = collapseBlankSpec ls pb := by
  intro ls
  induction ls with
  | nil => intro pb _; rfl
  | cons line ls ih =>
    intro pb h
    have hl := h line (List.mem_cons_self line ls)
    have hrest := fun l hm => h l (List.mem_cons_of_mem line hm)
    simp only [sanLines, collapseBlankSpec, Bool.false_eq_true, if_false,
      hl.1, hl.2.2]
    split
    · exact ih pb hrest
    · rw [ih _ hrest]

/-- Claim C9: on input with no ANSI escape characters or carriage returns
and no lines matching any noise-block or standalone noise pattern,
`_sanitize_text` returns the text unchanged except that every run of two or
more consecutive blank lines is collapsed to its first blank line. -/
theorem C9_clean_roundtrip (s : String)
    (hAnsi : ∀ c ∈ s.toList, c ≠ '\x1b' ∧ c ≠ '\x0d')
    (hLines : ∀ l ∈ splitLines s.toList,
        noiseStartHit (pyStrip l) = false ∧ noiseEndHit (pyStrip l) = false ∧
        is_noise_line (pyStrip l) = false) :
    sanitize_text s =
      ((collapseBlankSpec (splitLines s.toList) false).flatten).asString := by
  unfold sanitize_text
  rw [ansiStrip_clean s.toList hAnsi, sanLines_clean _ false hLines]

/-- Witness for C9 at a clean concrete input whose blank lines include a
newline run and a form-feed line (a non-newline Python line boundary): the
sanitizer output, the spec-side collapse, and the program all agree on
"a\n\nx\n\x0c\x0c\nb\n". -/
theorem C9_clean_roundtrip_witness :
    ((∀ c ∈ ("a\n\nx\n\x0c\x0c\nb\n" : String).toList,
        c ≠ '\x1b' ∧ c ≠ '\x0d') ∧
     (∀ l ∈ splitLines ("a\n\nx\n\x0c\x0c\nb\n" : String).toList,
        noiseStartHit (pyStrip l) = false ∧ noiseEndHit (pyStrip l) = false ∧
        is_noise_line (pyStrip l) = false)) ∧
    sanitize_text "a\n\nx\n\x0c\x0c\nb\n" =
      ((collapseBlankSpec
          (splitLines ("a\n\nx\n\x0c\x0c\nb\n" : String).toList)
          false).flatten).asString ∧
    sanitize_text "a\n\nx\n\x0c\x0c\nb\n" = "a\n\nx\n\x0cb\n" :=
  ⟨⟨by decide, by decide⟩,
   C9_clean_roundtrip "a\n\nx\n\x0c\x0c\nb\n" (by decide) (by decide),
   by decide⟩

/-- The sanitizer over a concatenation: process the first part, then the
second from the resulting state. -/
theorem sanLines_append :
    ∀ (xs ys : List (List Char)) (inN pb : Bool),
      sanLines (xs ++ ys) inN pb =
        sanLines xs inN pb ++
          sanLines ys (sanState xs inN pb).1 (sanState xs inN pb).2 := by
  intro xs
  induction xs with
  | nil => intro ys inN pb; rfl
  | cons line xs ih =>
    intro ys inN pb
    cases inN with
    | true =>
      by_cases hE : noiseEndHit (pyStrip line) = true
      · simp only [List.cons_append, sanLines, sanState, hE, if_true]
        exact ih ys false pb
      · simp only [List.cons_append, sanLines, sanState, hE, if_false]
        exact ih ys true pb
    | false =>
      by_cases hS : noiseStartHit (pyStrip line) = true
      · simp only [List.cons_append, sanLines, sanState, hS, if_true,
          Bool.false_eq_true, if_false]
        exact ih ys true pb
      · by_cases hN : is_noise_line (pyStrip line) = true
        · simp only [List.cons_append, sanLines, sanState, hS, hN, if_true,
            Bool.false_eq_true, if_false]
          exact ih ys false pb
        · by_cases hB : ((pyStrip line).isEmpty && pb) = true
          · simp only [List.cons_append, sanLines, sanState, hS, hN, hB,
              if_true, Bool.false_eq_true, if_false]
            exact ih ys false pb
          · simp only [List.cons_append, sanLines, sanState, hS, hN, hB,
              Bool.false_eq_true, if_false, List.cons_append]
            rw [List.append_eq, ih ys false (pyStrip line).isEmpty]

/-- Inside a noise block, lines that do not match the end marker are
dropped without changing the state. -/
theorem sanLines_skipNoise :
    ∀ (mid rest : List (List Char)) (q : Bool),
      (∀ l ∈ mid, noiseEndHit (pyStrip l) = false) →
      sanLines (mid ++ rest) true q = sanLines rest true q := by
  intro mid
  induction mid with
  | nil => intro rest q _; rfl
  | cons line mid ih =>
    intro rest q h
    have hl := h line (List.mem_cons_self line mid)
    simp only [List.cons_append, sanLines, hl, Bool.false_eq_true, if_false]
    exact ih rest q (fun l hm => h l (List.mem_cons_of_mem line hm))

/-- With a noise block opened and no end marker anywhere ahead, everything
to the end of input is elided. -/
theorem sanLines_noEnd :
    ∀ (ls : List (List Char)) (q : Bool),
      (∀ l ∈ ls, noiseEndHit (pyStrip l) = false) →
      sanLines ls true q = [] := by
  intro ls
  induction ls with
  | nil => intro q _; rfl
  | cons line ls ih =>
    intro q h
    have hl := h line (List.mem_cons_self line ls)
    simp only [sanLines, hl, Bool.false_eq_true, if_false]
    exact ih q (fun l hm => h l (List.mem_cons_of_mem line hm))

/-- A complete noise block — start line, interior without end markers, end
line — contributes nothing, and processing resumes after it in the state it
started from. -/
theorem sanLines_block (sline e : List Char)
    (mid post : List (List Char)) (q : Bool)
    (hs : noiseStartHit (pyStrip sline) = true)
    (hm : ∀ l ∈ mid, noiseEndHit (pyStrip l) = false)
    (he : noiseEndHit (pyStrip e) = true) :
    sanLines (sline :: (mid ++ e :: post)) false q = sanLines post false q := by
  simp only [sanLines, hs, if_true, Bool.false_eq_true, if_false]
  rw [sanLines_skipNoise mid (e :: post) q hm]
  simp only [sanLines, he, if_true]

/-- Claim C8 as amended: once the sanitizer reaches a noise-block start
marker outside a block, the whole block through the first end-marker line
is elided and the output equals sanitizing the input with the block lines
deleted — so surrounding lines are preserved exactly as the blockless text
would preserve them (the blank-collapse state carries across the block) —
and if no end-marker line follows the start, every line from the start
marker to the end of the input is elided. -/
theorem C8_block_elision :
    (∀ (pre mid post : List (List Char)) (sline e : List Char) (p : Bool),
       (sanState pre false p).1 = false →
       noiseStartHit (pyStrip sline) = true →
       (∀ l ∈ mid, noiseEndHit (pyStrip l) = false) →
       noiseEndHit (pyStrip e) = true →
       sanLines (pre ++ sline :: (mid ++ e :: post)) false p =
         sanLines (pre ++ post) false p) ∧
    (∀ (pre rest : List (List Char)) (sline : List Char) (p : Bool),
       (sanState pre false p).1 = false →
       noiseStartHit (pyStrip sline) = true →
       (∀ l ∈ rest, noiseEndHit (pyStrip l) = false) →
       sanLines (pre ++ sline :: rest) false p = sanLines pre false p) := by
  constructor
  · intro pre mid post sline e p hpre hs hm he
    rw [sanLines_append pre (sline :: (mid ++ e :: post)) false p,
      sanLines_append pre post false p, hpre,
      sanLines_block sline e mid post _ hs hm he]
  · intro pre rest sline p hpre hs hr
    rw [sanLines_append pre (sline :: rest) false p, hpre]
    simp only [sanLines, hs, if_true, Bool.false_eq_true, if_false]
    rw [sanLines_noEnd rest _ hr, List.append_nil]

/-- Witness for the amended C8 on a concrete block with surrounding
lines. -/
theorem C8_block_elision_witness :
    (((sanState [("a\n" : String).toList] false false).1 = false ∧
      noiseStartHit (pyStrip ("<html>\n" : String).toList) = true ∧
      (∀ l ∈ [("x\n" : String).toList],
        noiseEndHit (pyStrip l) = false) ∧
      noiseEndHit (pyStrip ("</html>\n" : String).toList) = true) ∧
     sanLines ([("a\n" : String).toList] ++ ("<html>\n" : String).toList ::
         ([("x\n" : String).toList] ++ ("</html>\n" : String).toList ::
           [("b\n" : String).toList])) false false =
       sanLines ([("a\n" : String).toList] ++ [("b\n" : String).toList])
         false false) ∧
    sanLines ([("a\n" : String).toList] ++ ("<html>\n" : String).toList ::
        [("x\n" : String).toList]) false false =
      sanLines [("a\n" : String).toList] false false :=
  ⟨⟨⟨by decide, by decide, by decide, by decide⟩,
    C8_block_elision.1 [("a\n" : String).toList] [("x\n" : String).toList]
      [("b\n" : String).toList] ("<html>\n" : String).toList
      ("</html>\n" : String).toList false (by decide) (by decide)
      (by decide) (by decide)⟩,
   C8_block_elision.2 [("a\n" : String).toList] [("x\n" : String).toList]
     ("<html>\n" : String).toList false (by decide) (by decide) (by decide)⟩

/-- Counterexample to C8 as stated: on
"a\n\n\x3chtml\x3e\nx\n\x3c/html\x3e\n\nb\n" the sanitizer elides the
block but does not preserve the blank line after the end marker (the
blank before the start marker and the blank after the end marker are
collapsed into one), so the lines after the end marker are not all
preserved as the claim requires. -/
theorem C8_counterexample :
    sanitize_text "a\n\n<html>\nx\n</html>\n\nb\n" = "a\n\nb\n" ∧
    elideBlocksClaim "a\n\n<html>\nx\n</html>\n\nb\n" = "a\n\n\nb\n" ∧
    sanitize_text "a\n\n<html>\nx\n</html>\n\nb\n" ≠
      elideBlocksClaim "a\n\n<html>\nx\n</html>\n\nb\n" :=
  ⟨by decide, by decide, by decide⟩

/-- Modifying index `i` rewrites exactly the element read at `i`. -/
theorem listModify_get_self {α : Type} (f : α → α) :
    ∀ (i : Nat) (l : List α) (a : α),
      l[i]? = some a → (listModify f i l)[i]? = some (f a) := by
  intro i
  induction i with
  | zero =>
    intro l a h
    cases l with
    | nil => simp at h
    | cons t ts =>
      simp at h
      simp [listModify, h]
  | succ n ih =>
    intro l a h
    cases l with
    | nil => simp at h
    | cons t ts =>
      simp at h
      simp [listModify, ih ts a h]

/-- Every index recorded as executed was either pending in the remaining
index list or already recorded before the call. -/
theorem runV3Go_executed_sub (outcomes : Nat → RunOutcome) :
    ∀ (l : List Nat) (st : RunState) (j : Nat),
      j ∈ (runV3Go outcomes l st).executed → j ∈ l ∨ j ∈ st.executed := by
  intro l
  induction l with
  | nil => intro st j hj; exact Or.inr hj
  | cons i rest ih =>
    intro st j hj
    simp only [runV3Go] at hj
    split at hj
    · exact Or.inr hj
    · split at hj
      · exact Or.inr hj
      · split at hj
        · rcases ih _ j hj with h | h
          · exact Or.inl (List.mem_cons_of_mem i h)
          · exact Or.inr h
        · split at hj
          · simp only [List.mem_cons] at hj
            rcases hj with h | h
            · exact Or.inl (h ▸ List.mem_cons_self i rest)
            · exact Or.inr h
          · split at hj
            · rcases ih _ j hj with h | h
              · exact Or.inl (List.mem_cons_of_mem i h)
              · simp only [List.mem_cons] at h
                rcases h with h | h
                · exact Or.inl (h ▸ List.mem_cons_self i rest)
                · exact Or.inr h
            · split at hj
              · rcases ih _ j hj with h | h
                · exact Or.inl (List.mem_cons_of_mem i h)
                · simp only [List.mem_cons] at h
                  rcases h with h | h
                  · exact Or.inl (h ▸ List.mem_cons_self i rest)
                  · exact Or.inr h
              · rcases ih _ j hj with h | h
                · exact Or.inl (List.mem_cons_of_mem i h)
                · simp only [List.mem_cons] at h
                  rcases h with h | h
                  · exact Or.inl (h ▸ List.mem_cons_self i rest)
                  · exact Or.inr h

/-- Core interrupt property of the v3 loop: if the interrupted flag is
observed after task `i` ran, the loop marks exactly task `i` as
`interrupted`, immediately persists that state, raises the shared flag, and
starts no later task. -/
theorem runV3Go_interrupt (outcomes : Nat → RunOutcome) :
    ∀ (l : List Nat) (st : RunState) (i : Nat),
      l.Pairwise (· < ·) →
      (outcomes i).interrupted = true →
      i ∉ st.executed →
      i ∈ (runV3Go outcomes l st).executed →
      (∃ t, (runV3Go outcomes l st).tasks[i]? = some t ∧
        t.status = "interrupted") ∧
      (runV3Go outcomes l st).saves.head? = some (runV3Go outcomes l st).tasks ∧
      (runV3Go outcomes l st).interrupted = true ∧
      (∀ j ∈ (runV3Go outcomes l st).executed, j ∈ st.executed ∨ j ≤ i) := by
  intro l
  induction l with
  | nil => intro st i _ _ hni hexec; exact absurd hexec hni
  | cons h rest ih =>
    intro st i hpw hint hni hexec
    have hrest_pw : rest.Pairwise (· < ·) := (List.pairwise_cons.mp hpw).2
    have hlt : ∀ x ∈ rest, h < x := (List.pairwise_cons.mp hpw).1
    by_cases hSt : st.interrupted = true
    · simp only [runV3Go, hSt, if_true] at hexec ⊢
      exact absurd hexec hni
    · rcases htask : st.tasks[h]? with _ | task
      · simp only [runV3Go, hSt, Bool.false_eq_true, if_false, htask] at hexec ⊢
        exact absurd hexec hni
      · by_cases hskip : (task.status == "completed") = true
        · -- skipped task: state carries over unchanged except the counter
          simp only [runV3Go, hSt, Bool.false_eq_true, if_false, htask,
            hskip, if_true] at hexec ⊢
          exact ih _ i hrest_pw hint hni hexec
        · by_cases hhi : h = i
          · subst hhi
            by_cases hoi : (outcomes h).interrupted = true
            · -- the interrupt is observed right after task h = i ran
              simp only [runV3Go, hSt, Bool.false_eq_true, if_false, htask,
                hskip, hoi, if_true] at hexec ⊢
              refine ⟨⟨_, listModify_get_self _ h _ _
                  (listModify_get_self _ h st.tasks task htask), rfl⟩,
                by trivial, by trivial, ?_⟩
              intro j hj
              rcases List.mem_cons.mp hj with he | he
              · exact Or.inr (le_of_eq he)
              · exact Or.inl he
            · exact absurd hint hoi
          · have key : ∀ st2 : RunState, st2.executed = h :: st.executed →
                i ∈ (runV3Go outcomes rest st2).executed →
                (∃ t, (runV3Go outcomes rest st2).tasks[i]? = some t ∧
                  t.status = "interrupted") ∧
                (runV3Go outcomes rest st2).saves.head? =
                  some (runV3Go outcomes rest st2).tasks ∧
                (runV3Go outcomes rest st2).interrupted = true ∧
                (∀ j ∈ (runV3Go outcomes rest st2).executed,
                  j ∈ st.executed ∨ j ≤ i) := by
              intro st2 hex2 hexec2
              have hni2 : i ∉ st2.executed := by
                rw [hex2]
                intro hmem
                rcases List.mem_cons.mp hmem with he | he
                · exact hhi he.symm
                · exact hni he
              obtain ⟨c1, c2, c3, c4⟩ := ih st2 i hrest_pw hint hni2 hexec2
              refine ⟨c1, c2, c3, ?_⟩
              intro j hj
              rcases c4 j hj with hc | hc
              · rw [hex2] at hc
                rcases List.mem_cons.mp hc with he | he
                · subst he
                  have hir : i ∈ rest := by
                    rcases runV3Go_executed_sub outcomes rest st2 i hexec2
                      with hr | hr
                    · exact hr
                    · exact absurd hr hni2
                  exact Or.inr (le_of_lt (hlt i hir))
                · exact Or.inl he
              · exact Or.inr hc
            by_cases hoi : (outcomes h).interrupted = true
            · -- interrupt observed after a different task h: i never ran
              simp only [runV3Go, hSt, Bool.false_eq_true, if_false, htask,
                hskip, hoi, if_true] at hexec ⊢
              rcases List.mem_cons.mp hexec with he | he
              · exact absurd he.symm hhi
              · exact absurd he hni
            · by_cases hto : (outcomes h).timed_out = true
              · simp only [runV3Go, hSt, Bool.false_eq_true, if_false, htask,
                  hskip, hoi, hto, if_true] at hexec ⊢
                exact key _ rfl hexec
              · by_cases hcl : (classify_result (outcomes h).return_code
                    (outcomes h).elapsed == "completed") = true
                · simp only [runV3Go, hSt, Bool.false_eq_true, if_false,
                    htask, hskip, hoi, hto, hcl, if_true] at hexec ⊢
                  exact key _ rfl hexec
                · simp only [runV3Go, hSt, Bool.false_eq_true, if_false,
                    htask, hskip, hoi, hto, hcl, if_true] at hexec ⊢
                  exact key _ rfl hexec

/-- Legacy-loop analogue of `runV3Go_executed_sub`. -/
theorem runLegacyGo_executed_sub (outcomes : Nat → RunOutcome) :
    ∀ (l : List Nat) (st : LRunState) (j : Nat),
      j ∈ (runLegacyGo outcomes l st).executed → j ∈ l ∨ j ∈ st.executed := by
  intro l
  induction l with
  | nil => intro st j hj; exact Or.inr hj
  | cons i rest ih =>
    intro st j hj
    simp only [runLegacyGo] at hj
    split at hj
    · exact Or.inr hj
    · split at hj
      · exact Or.inr hj
      · split at hj
        · rcases ih _ j hj with h | h
          · exact Or.inl (List.mem_cons_of_mem i h)
          · exact Or.inr h
        · split at hj
          · simp only [List.mem_cons] at hj
            rcases hj with h | h
            · exact Or.inl (h ▸ List.mem_cons_self i rest)
            · exact Or.inr h
          · split at hj
            · rcases ih _ j hj with h | h
              · exact Or.inl (List.mem_cons_of_mem i h)
              · simp only [List.mem_cons] at h
                rcases h with h | h
                · exact Or.inl (h ▸ List.mem_cons_self i rest)
                · exact Or.inr h
            · split at hj
              · rcases ih _ j hj with h | h
                · exact Or.inl (List.mem_cons_of_mem i h)
                · simp only [List.mem_cons] at h
                  rcases h with h | h
                  · exact Or.inl (h ▸ List.mem_cons_self i rest)
                  · exact Or.inr h
              · rcases ih _ j hj with h | h
                · exact Or.inl (List.mem_cons_of_mem i h)
                · simp only [List.mem_cons] at h
                  rcases h with h | h
                  · exact Or.inl (h ▸ List.mem_cons_self i rest)
                  · exact Or.inr h

/-- Core interrupt property of the legacy loop: the interrupt branch resets
the task to `not-started` (not `interrupted`), persists the plan, raises
the flag, and starts no later task. -/
theorem runLegacyGo_interrupt (outcomes : Nat → RunOutcome) :
    ∀ (l : List Nat) (st : LRunState) (i : Nat),
      l.Pairwise (· < ·) →
      (outcomes i).interrupted = true →
      i ∉ st.executed →
      i ∈ (runLegacyGo outcomes l st).executed →
      (∃ t, (runLegacyGo outcomes l st).tasks[i]? = some t ∧
        t.status = some "not-started") ∧
      (runLegacyGo outcomes l st).saves.head? =
        some (runLegacyGo outcomes l st).tasks ∧
      (runLegacyGo outcomes l st).interrupted = true ∧
      (∀ j ∈ (runLegacyGo outcomes l st).executed,
        j ∈ st.executed ∨ j ≤ i) := by
  intro l
  induction l with
  | nil => intro st i _ _ hni hexec; exact absurd hexec hni
  | cons h rest ih =>
    intro st i hpw hint hni hexec
    have hrest_pw : rest.Pairwise (· < ·) := (List.pairwise_cons.mp hpw).2
    have hlt : ∀ x ∈ rest, h < x := (List.pairwise_cons.mp hpw).1
    by_cases hSt : st.interrupted = true
    · simp only [runLegacyGo, hSt, if_true] at hexec ⊢
      exact absurd hexec hni
    · rcases htask : st.tasks[h]? with _ | task
      · simp only [runLegacyGo, hSt, Bool.false_eq_true, if_false, htask]
          at hexec ⊢
        exact absurd hexec hni
      · by_cases hskip : ((task.status.getD "not-started") == "completed") = true
        · simp only [runLegacyGo, hSt, Bool.false_eq_true, if_false, htask,
            hskip, if_true] at hexec ⊢
          exact ih _ i hrest_pw hint hni hexec
        · by_cases hhi : h = i
          · subst hhi
            by_cases hoi : (outcomes h).interrupted = true
            · simp only [runLegacyGo, hSt, Bool.false_eq_true, if_false,
                htask, hskip, hoi, if_true] at hexec ⊢
              refine ⟨⟨_, listModify_get_self _ h _ _
                  (listModify_get_self _ h st.tasks task htask), rfl⟩,
                by trivial, by trivial, ?_⟩
              intro j hj
              rcases List.mem_cons.mp hj with he | he
              · exact Or.inr (le_of_eq he)
              · exact Or.inl he
            · exact absurd hint hoi
          · have key : ∀ st2 : LRunState, st2.executed = h :: st.executed →
                i ∈ (runLegacyGo outcomes rest st2).executed →
                (∃ t, (runLegacyGo outcomes rest st2).tasks[i]? = some t ∧
                  t.status = some "not-started") ∧
                (runLegacyGo outcomes rest st2).saves.head? =
                  some (runLegacyGo outcomes rest st2).tasks ∧
                (runLegacyGo outcomes rest st2).interrupted = true ∧
                (∀ j ∈ (runLegacyGo outcomes rest st2).executed,
                  j ∈ st.executed ∨ j ≤ i) := by
              intro st2 hex2 hexec2
              have hni2 : i ∉ st2.executed := by
                rw [hex2]
                intro hmem
                rcases List.mem_cons.mp hmem with he | he
                · exact hhi he.symm
                · exact hni he
              obtain ⟨c1, c2, c3, c4⟩ := ih st2 i hrest_pw hint hni2 hexec2
              refine ⟨c1, c2, c3, ?_⟩
              intro j hj
              rcases c4 j hj with hc | hc
              · rw [hex2] at hc
                rcases List.mem_cons.mp hc with he | he
                · subst he
                  have hir : i ∈ rest := by
                    rcases runLegacyGo_executed_sub outcomes rest st2 i hexec2
                      with hr | hr
                    · exact hr
                    · exact absurd hr hni2
                  exact Or.inr (le_of_lt (hlt i hir))
                · exact Or.inl he
              · exact Or.inr hc
            by_cases hoi : (outcomes h).interrupted = true
            · simp only [runLegacyGo, hSt, Bool.false_eq_true, if_false,
                htask, hskip, hoi, if_true] at hexec ⊢
              rcases List.mem_cons.mp hexec with he | he
              · exact absurd he.symm hhi
              · exact absurd he hni
            · by_cases hto : (outcomes h).timed_out = true
              · simp only [runLegacyGo, hSt, Bool.false_eq_true, if_false,
                  htask, hskip, hoi, hto, if_true] at hexec ⊢
                exact key _ rfl hexec
              · by_cases hcl : (classify_result (outcomes h).return_code
                    (outcomes h).elapsed == "completed") = true
                · simp only [runLegacyGo, hSt, Bool.false_eq_true, if_false,
                    htask, hskip, hoi, hto, hcl, if_true] at hexec ⊢
                  exact key _ rfl hexec
                · simp only [runLegacyGo, hSt, Bool.false_eq_true, if_false,
                    htask, hskip, hoi, hto, hcl, if_true] at hexec ⊢
                  exact key _ rfl hexec

/-- Claim C2 as amended: if the shared interrupted flag is set when a
started task's child process returns, both loops persist the owning state
and start no further task, but they record different statuses: the v3 loop
sets the task to `interrupted`, while the legacy loop resets it to
`not-started`. -/
theorem C2_interrupt_stops_loop :
    (∀ (tasks : List Task) (outcomes : Nat → RunOutcome) (i : Nat),
       (outcomes i).interrupted = true →
       i ∈ (runV3 tasks outcomes).executed →
       (∃ t, (runV3 tasks outcomes).tasks[i]? = some t ∧
         t.status = "interrupted") ∧
       (runV3 tasks outcomes).saves.head? = some (runV3 tasks outcomes).tasks ∧
       (runV3 tasks outcomes).interrupted = true ∧
       (∀ j ∈ (runV3 tasks outcomes).executed, j ≤ i)) ∧
    (∀ (tasks : List LTask) (startIdx : Nat) (outcomes : Nat → RunOutcome)
       (i : Nat),
       (outcomes i).interrupted = true →
       i ∈ (runLegacy tasks startIdx outcomes).executed →
       (∃ t, (runLegacy tasks startIdx outcomes).tasks[i]? = some t ∧
         t.status = some "not-started") ∧
       (runLegacy tasks startIdx outcomes).saves.head? =
         some (runLegacy tasks startIdx outcomes).tasks ∧
       (runLegacy tasks startIdx outcomes).interrupted = true ∧
       (∀ j ∈ (runLegacy tasks startIdx outcomes).executed, j ≤ i)) := by
  constructor
  · intro tasks outcomes i hint hexec
    obtain ⟨c1, c2, c3, c4⟩ := runV3Go_interrupt outcomes
      (List.range tasks.length) { tasks := tasks } i
      (List.pairwise_lt_range tasks.length) hint (by simp) hexec
    refine ⟨c1, c2, c3, ?_⟩
    intro j hj
    rcases c4 j hj with hc | hc
    · simp at hc
    · exact hc
  · intro tasks startIdx outcomes i hint hexec
    obtain ⟨c1, c2, c3, c4⟩ := runLegacyGo_interrupt outcomes
      (List.range' startIdx (tasks.length - startIdx)) { tasks := tasks } i
      (List.pairwise_lt_range' startIdx (tasks.length - startIdx)) hint
      (by simp) hexec
    refine ⟨c1, c2, c3, ?_⟩
    intro j hj
    rcases c4 j hj with hc | hc
    · simp at hc
    · exact hc

/-- Witness for the amended C2: a one-task v3 run and a one-task legacy run
whose only execution observes the interrupt flag. -/
theorem C2_interrupt_stops_loop_witness :
    (((fun _ : Nat => (⟨true, false, 0, 0⟩ : RunOutcome)) 0).interrupted = true ∧
     0 ∈ (runV3 [Task.fromFile "T-1"]
        (fun _ => ⟨true, false, 0, 0⟩)).executed) ∧
    ((∃ t, (runV3 [Task.fromFile "T-1"]
        (fun _ => ⟨true, false, 0, 0⟩)).tasks[0]? = some t ∧
        t.status = "interrupted") ∧
     (runV3 [Task.fromFile "T-1"] (fun _ => ⟨true, false, 0, 0⟩)).saves.head? =
       some (runV3 [Task.fromFile "T-1"] (fun _ => ⟨true, false, 0, 0⟩)).tasks ∧
     (runV3 [Task.fromFile "T-1"]
        (fun _ => ⟨true, false, 0, 0⟩)).interrupted = true ∧
     (∀ j ∈ (runV3 [Task.fromFile "T-1"]
        (fun _ => ⟨true, false, 0, 0⟩)).executed, j ≤ 0)) ∧
    ((∃ t, (runLegacy [{ task_no := some "T-1", status := some "not-started" }]
        0 (fun _ => ⟨true, false, 0, 0⟩)).tasks[0]? = some t ∧
        t.status = some "not-started") ∧
     (runLegacy [{ task_no := some "T-1", status := some "not-started" }] 0
        (fun _ => ⟨true, false, 0, 0⟩)).saves.head? =
       some (runLegacy [{ task_no := some "T-1", status := some "not-started" }]
        0 (fun _ => ⟨true, false, 0, 0⟩)).tasks ∧
     (runLegacy [{ task_no := some "T-1", status := some "not-started" }] 0
        (fun _ => ⟨true, false, 0, 0⟩)).interrupted = true ∧
     (∀ j ∈ (runLegacy [{ task_no := some "T-1", status := some "not-started" }]
        0 (fun _ => ⟨true, false, 0, 0⟩)).executed, j ≤ 0)) :=
  ⟨⟨by decide, by decide⟩,
   C2_interrupt_stops_loop.1 [Task.fromFile "T-1"]
     (fun _ => ⟨true, false, 0, 0⟩) 0 (by decide) (by decide),
   C2_interrupt_stops_loop.2
     [{ task_no := some "T-1", status := some "not-started" }] 0
     (fun _ => ⟨true, false, 0, 0⟩) 0 (by decide) (by decide)⟩

/-- Counterexample to C2 as stated: in the legacy execution loop an
interrupt observed after the task ran leaves the task `not-started`, not
`interrupted`, even though the task was started, the flag was raised and
the loop stopped. -/
theorem C2_counterexample :
    (runLegacy [{ task_no := some "T-1", status := some "not-started" }] 0
       (fun _ => ⟨true, false, 0, 0⟩)).executed = [0] ∧
    (runLegacy [{ task_no := some "T-1", status := some "not-started" }] 0
       (fun _ => ⟨true, false, 0, 0⟩)).interrupted = true ∧
    (runLegacy [{ task_no := some "T-1", status := some "not-started" }] 0
       (fun _ => ⟨true, false, 0, 0⟩)).tasks.map LTask.status =
      [some "not-started"] ∧
    (runLegacy [{ task_no := some "T-1", status := some "not-started" }] 0
       (fun _ => ⟨true, false, 0, 0⟩)).tasks.map LTask.status ≠
      [some "interrupted"] :=
  ⟨by decide, by decide, by decide, by decide⟩

/-- The wave loop emits at most one wave per fuel unit (one per Python
iteration). -/
theorem planGo_length_le :
    ∀ (fuel : Nat) (remaining : List Task) (completed : List String),
      (planGo remaining completed fuel).length ≤ fuel := by
  intro fuel
  induction fuel with
  | zero =>
    intro remaining completed
    cases remaining <;> simp [planGo]
  | succ f ih =>
    intro remaining completed
    cases remaining with
    | nil => simp [planGo]
    | cons t rest =>
      simp only [planGo]
      split
      · simp
      · simp only [List.length_cons, Nat.add_le_add_iff_right]
        exact ih _ _

/-- With enough fuel (strictly more than the number of remaining tasks,
which `get_execution_plan` always supplies), the emitted waves are exactly
a permutation of the remaining tasks. -/
theorem planGo_flatten_perm :
    ∀ (fuel : Nat) (remaining : List Task) (completed : List String),
      remaining.length < fuel →
      (planGo remaining completed fuel).flatten.Perm remaining := by
  intro fuel
  induction fuel with
  | zero => intro remaining completed h; exact absurd h (Nat.not_lt_zero _)
  | succ f ih =>
    intro remaining completed h
    cases remaining with
    | nil => simp [planGo]
    | cons t rest =>
      simp only [planGo]
      split
      · simp only [List.flatten_cons, List.flatten_nil, List.append_nil]
        exact List.perm_insertionSort taskNoLe (t :: rest)
      · rename_i hne
        simp only [List.flatten_cons]
        have hwlen : ((t :: rest).filter (ready completed)).length +
            ((t :: rest).filter (fun u => !ready completed u)).length =
            (t :: rest).length :=
          (List.filter_append_perm (ready completed) (t :: rest)).length_eq ▸
            (List.length_append _ _).symm
        have hwpos : 0 < ((t :: rest).filter (ready completed)).length := by
          rcases Nat.eq_zero_or_pos ((t :: rest).filter
              (ready completed)).length with hz | hp
          · exact absurd ((List.isEmpty_iff).mpr
              (List.length_eq_zero.mp hz)) (by simpa using hne)
          · exact hp
        have hrec := ih ((t :: rest).filter (fun u => !ready completed u))
          (completed ++ ((t :: rest).filter (ready completed)).map
            Task.task_no)
          (by
            simp only [List.length_cons] at h hwlen ⊢
            omega)
        refine ((List.perm_insertionSort taskLe _).append hrec).trans ?_
        exact List.filter_append_perm (ready completed) (t :: rest)

/-- A wave's task never depends on a name that is not already completed,
unless it sits in the final (dump) wave: every dependency of a task in a
non-final wave was placed in an earlier wave or completed before the call. -/
theorem planGo_dep :
    ∀ (fuel : Nat) (remaining : List Task) (completed : List String)
      (i : Nat) (wi : List Task) (t : Task) (d : String),
      (planGo remaining completed fuel)[i]? = some wi →
      t ∈ wi → t.depends_on = some d →
      d ∈ completed ∨
      (∃ j, j < i ∧ ∃ wj, (planGo remaining completed fuel)[j]? = some wj ∧
        d ∈ wj.map Task.task_no) ∨
      i + 1 = (planGo remaining completed fuel).length := by
  intro fuel
  induction fuel with
  | zero =>
    intro remaining completed i wi t d hwi
    cases remaining <;> simp [planGo] at hwi
  | succ f ih =>
    intro remaining completed i wi t d hwi hmem hdep
    cases remaining with
    | nil => simp [planGo] at hwi
    | cons a rest =>
      by_cases hE : ((a :: rest).filter (ready completed)).isEmpty = true
      · simp only [planGo, hE, if_true] at hwi ⊢
        cases i with
        | zero =>
          right; right
          simp
        | succ k =>
          simp at hwi
      · have hE2 : ((a :: rest).filter (ready completed)).isEmpty = false := by
          simpa using hE
        simp only [planGo, hE2, Bool.false_eq_true, if_false] at hwi ⊢
        cases i with
        | zero =>
          left
          simp only [List.getElem?_cons_zero, Option.some.injEq] at hwi
          have hmem2 : t ∈ (a :: rest).filter (ready completed) := by
            rw [← hwi] at hmem
            exact (List.mem_insertionSort taskLe).mp hmem
          have hready := (List.mem_filter.mp hmem2).2
          simp only [ready, hdep] at hready
          simpa using hready
        | succ k =>
          simp only [List.getElem?_cons_succ] at hwi
          rcases ih _ _ k wi t d hwi hmem hdep with hc | hc | hc
          · rcases List.mem_append.mp hc with hl | hr
            · exact Or.inl hl
            · refine Or.inr (Or.inl ⟨0, Nat.succ_pos k, _, List.getElem?_cons_zero, ?_⟩)
              rcases List.mem_map.mp hr with ⟨u, hu, hud⟩
              exact hud ▸ List.mem_map_of_mem Task.task_no
                ((List.mem_insertionSort taskLe).mpr hu)
          · rcases hc with ⟨j, hj, wj, hwj, hd⟩
            refine Or.inr (Or.inl ⟨j + 1, Nat.succ_lt_succ hj, wj, ?_, hd⟩)
            simpa using hwj
          · right; right
            simp only [List.length_cons]
            omega

/-- In a list of lists whose flattening has no duplicates, an element pins
down the index of the list containing it. -/
theorem nodup_flatten_same_index (L : List (List String))
    (hn : L.flatten.Nodup) (d : String) (j j2 : Nat) (wj wj2 : List String)
    (hj : L[j]? = some wj) (hj2 : L[j2]? = some wj2)
    (hd : d ∈ wj) (hd2 : d ∈ wj2) : j = j2 := by
  have hpw : L.Pairwise List.Disjoint := (List.nodup_flatten.mp hn).2
  obtain ⟨hjl, hje⟩ := List.getElem?_eq_some_iff.mp hj
  obtain ⟨hjl2, hje2⟩ := List.getElem?_eq_some_iff.mp hj2
  by_contra hne
  rcases Nat.lt_or_ge j j2 with hlt | hge
  · have := (List.pairwise_iff_getElem.mp hpw) j j2 hjl hjl2 hlt
    rw [hje, hje2] at this
    exact this hd hd2
  · have hlt2 : j2 < j := Nat.lt_of_le_of_ne hge (fun e => hne e.symm)
    have := (List.pairwise_iff_getElem.mp hpw) j2 j hjl2 hjl hlt2
    rw [hje, hje2] at this
    exact this hd2 hd

/-- Claim C4: for a task set with distinct task numbers, the waves of
`get_execution_plan` cover every task number exactly once, a task never
sits in a strictly earlier wave than the task its `depends_on` names, and
the loop emits at most (number of tasks + 1) waves — unsatisfiable
dependencies are dumped into the final wave rather than looping forever. -/
theorem C4_execution_plan (ts : TaskSet)
    (hnd : (ts.tasks.map Task.task_no).Nodup) :
    (((get_execution_plan ts).flatten.map Task.task_no).Perm
        (ts.tasks.map Task.task_no)) ∧
    (∀ (i j : Nat) (wi wj : List Task) (t u : Task),
        (get_execution_plan ts)[i]? = some wi →
        (get_execution_plan ts)[j]? = some wj → t ∈ wi → u ∈ wj →
        t.depends_on = some u.task_no → j ≤ i) ∧
    (get_execution_plan ts).length ≤ ts.tasks.length + 1 := by
  have hperm : (get_execution_plan ts).flatten.Perm
      (ts.tasks.insertionSort taskLe) := by
    unfold get_execution_plan
    exact planGo_flatten_perm _ _ [] (Nat.lt_succ_self _)
  have hnames : (((get_execution_plan ts).flatten.map Task.task_no).Perm
      (ts.tasks.map Task.task_no)) :=
    (hperm.map Task.task_no).trans
      ((List.perm_insertionSort taskLe ts.tasks).map Task.task_no)
  refine ⟨hnames, ?_, ?_⟩
  · intro i j wi wj t u hwi hwj hti huj hdep
    have hnodup : ((get_execution_plan ts).map
        (fun w => w.map Task.task_no)).flatten.Nodup := by
      rw [← List.map_flatten]
      exact (hnames.symm.nodup hnd : _)
    rcases planGo_dep _ _ [] i wi t u.task_no hwi hti hdep with hc | hc | hc
    · exact absurd hc (List.not_mem_nil _)
    · rcases hc with ⟨j2, hj2, wj2, hwj2, hd2⟩
      rw [show planGo (ts.tasks.insertionSort taskLe) []
        ((ts.tasks.insertionSort taskLe).length + 1) = get_execution_plan ts
        from rfl] at hwj2
      have hj2e : ((get_execution_plan ts).map
          (fun w => w.map Task.task_no))[j2]? = some (wj2.map Task.task_no) := by
        rw [List.getElem?_map, hwj2]
        rfl
      have hje : ((get_execution_plan ts).map
          (fun w => w.map Task.task_no))[j]? = some (wj.map Task.task_no) := by
        rw [List.getElem?_map, hwj]
        rfl
      have := nodup_flatten_same_index _ hnodup u.task_no j j2
        (wj.map Task.task_no) (wj2.map Task.task_no) hje hj2e
        (List.mem_map_of_mem Task.task_no huj) hd2
      omega
    · rw [show planGo (ts.tasks.insertionSort taskLe) []
        ((ts.tasks.insertionSort taskLe).length + 1) = get_execution_plan ts
        from rfl] at hc
      have hjlen := (List.getElem?_eq_some_iff.mp hwj).1
      omega
  · have hle := planGo_length_le (ts.tasks.insertionSort taskLe).length.succ
      (ts.tasks.insertionSort taskLe) []
    unfold get_execution_plan
    simpa [List.length_insertionSort] using hle

/-- Witness for C4 on the spec scenario (A; B depends on A; C). -/
theorem C4_execution_plan_witness :
    (sampleSet.tasks.map Task.task_no).Nodup ∧
    ((((get_execution_plan sampleSet).flatten.map Task.task_no).Perm
        (sampleSet.tasks.map Task.task_no)) ∧
     (∀ (i j : Nat) (wi wj : List Task) (t u : Task),
        (get_execution_plan sampleSet)[i]? = some wi →
        (get_execution_plan sampleSet)[j]? = some wj → t ∈ wi → u ∈ wj →
        t.depends_on = some u.task_no → j ≤ i) ∧
     (get_execution_plan sampleSet).length ≤ sampleSet.tasks.length + 1) :=
  ⟨by decide, C4_execution_plan sampleSet (by decide)⟩

end AutoRun
